import Mathlib

/-!
Verification of the document coordination and queue batch processing core of
the contentworker workspace.

The definitions below are a shallow embedding of
`apps/queue-processor/src/processors/webhook-processor.ts` (the
`DocumentCoordinator` durable object and the queue-processor context),
`apps/queue-processor/src/index.ts` (the batch dispatch handlers),
`apps/queue-processor/src/processors/batch-processor.ts` and
`apps/queue-processor/src/processors/document-processor.ts`.

Modelling conventions:
- JavaScript millisecond timestamps are `Int` (so `now - retention` keeps
  JavaScript signed arithmetic).
- The durable object key-value storage is an association list; `alPut`
  overwrites the unique entry of a key, `alDel` removes it.  The storage key
  space `lock:<id>` / `state:<id>` / `hash:<h>` is partitioned by the three
  disjoint prefixes, so it is represented by three association lists keyed by
  the document id (resp. the content hash).
- The several `Date.now()` calls inside one handler are modelled by a single
  instant `now` passed as an argument; `crypto.randomUUID()` is modelled by a
  caller-supplied fresh value.
- Fields that a JSON partial update may omit are `Option`; the JavaScript
  object spread keeps the old value exactly when the update lacks the key.
-/

/-- `DocumentLock` record from the coordination types. -/
structure DocumentLock where
  documentId : String
  lockId : String
  lockType : String
  acquiredAt : Int
  expiresAt : Int
  workerId : String
deriving DecidableEq

/-- Progress sub-record of `ProcessingState`. -/
structure Progress where
  currentStep : String
  stepsCompleted : Int
  totalSteps : Int
  percentage : Int
deriving DecidableEq

/-- `ProcessingState` record; every field other than the key may be absent in
a partial update submitted by a caller, so they are `Option`. -/
structure ProcessingState where
  documentId : String
  status : Option String
  progress : Option Progress
  startedAt : Option Int
  lastUpdatedAt : Option Int
  completedAt : Option Int
  error : Option String
deriving DecidableEq

/-- `DeduplicationResult` returned by the deduplicate handler. -/
structure DeduplicationResult where
  isDuplicate : Bool
  existingDocumentId : Option String
  contentHash : String
  action : String
  reason : Option String
deriving DecidableEq

/-- Counts returned by the cleanup handler. -/
structure CleanupResults where
  expiredLocks : Nat
  oldStates : Nat
  oldHashes : Nat
deriving DecidableEq

/-- Association list lookup, first entry with the key. -/
def alGet (k : String) (l : List (String × α)) : Option α :=
  (l.find? fun p => p.1 == k).map (fun p => p.2)

/-- Association list overwrite: the storage `put` keeps one record per key. -/
def alPut (k : String) (v : α) (l : List (String × α)) : List (String × α) :=
  (k, v) :: l.filter fun p => p.1 != k

/-- Association list delete, the storage `delete`. -/
def alDel (k : String) (l : List (String × α)) : List (String × α) :=
  l.filter fun p => p.1 != k

/-- Number of records stored under a key. -/
def countKey (k : String) (l : List (String × α)) : Nat :=
  (l.filter fun p => p.1 == k).length

/-- One `DocumentCoordinator` durable object instance: its storage split by
the three key prefixes. -/
structure CoordState where
  locks : List (String × DocumentLock)
  states : List (String × ProcessingState)
  hashes : List (String × String)
deriving DecidableEq

/-- The coordinator instance with empty storage. -/
def emptyCoord : CoordState := ⟨[], [], []⟩

/-- Result of the acquire-lock handler: granted with the stored lock and an
action tag, or a 409 conflict carrying the holder summary. -/
inductive AcquireResult where
  | granted (lock : DocumentLock) (action : String)
  | conflict (workerId : String) (lockType : String) (expiresAt : Int)
deriving DecidableEq

/-- Result of the release-lock handler: 200, 404 or 403. -/
inductive ReleaseResult where
  | ok
  | notFound
  | forbidden
deriving DecidableEq

/-- `DocumentCoordinator.handleAcquireLock`.  If a lock is stored and
unexpired: same worker extends `expiresAt`, a different worker gets a 409
conflict with the holder summary.  Otherwise a new lock is stored. -/
def handleAcquireLock (st : CoordState) (documentId lockType : String)
    (ttlSeconds : Int) (workerId : String) (now : Int) (freshLockId : String) :
    CoordState × AcquireResult :=
  let existingLock := alGet documentId st.locks
  match existingLock with
  | some l =>
    if now < l.expiresAt then
      if l.workerId == workerId then
        let updatedLock : DocumentLock := { l with expiresAt := now + ttlSeconds * 1000 }
        ({ st with locks := alPut documentId updatedLock st.locks },
         .granted updatedLock "extended")
      else
        (st, .conflict l.workerId l.lockType l.expiresAt)
    else
      let newLock : DocumentLock :=
        ⟨documentId, freshLockId, lockType, now, now + ttlSeconds * 1000, workerId⟩
      ({ st with locks := alPut documentId newLock st.locks }, .granted newLock "acquired")
  | none =>
    let newLock : DocumentLock :=
      ⟨documentId, freshLockId, lockType, now, now + ttlSeconds * 1000, workerId⟩
    ({ st with locks := alPut documentId newLock st.locks }, .granted newLock "acquired")

/-- `DocumentCoordinator.handleReleaseLock`: 404 without a record, 403 when
`lockId` or `workerId` mismatch, delete on a full match. -/
def handleReleaseLock (st : CoordState) (documentId lockId workerId : String) :
    CoordState × ReleaseResult :=
  match alGet documentId st.locks with
  | none => (st, .notFound)
  | some l =>
    if l.lockId != lockId || l.workerId != workerId then
      (st, .forbidden)
    else
      ({ st with locks := alDel documentId st.locks }, .ok)

/-- JavaScript object spread on one field: the update wins when it carries the
key, otherwise the old value survives. -/
def jsOverride (upd old : Option α) : Option α :=
  match upd with
  | some v => some v
  | none => old

/-- The shallow merge performed by the state update handler's object spread,
field by field. -/
def spreadMerge (old upd : ProcessingState) : ProcessingState where
  documentId := upd.documentId
  status := jsOverride upd.status old.status
  progress := jsOverride upd.progress old.progress
  startedAt := jsOverride upd.startedAt old.startedAt
  lastUpdatedAt := jsOverride upd.lastUpdatedAt old.lastUpdatedAt
  completedAt := jsOverride upd.completedAt old.completedAt
  error := jsOverride upd.error old.error

/-- `DocumentCoordinator.handleUpdateState`: shallow merge of the submitted
partial over the stored record (or a fresh record), then `lastUpdatedAt` is
stamped with the server clock. -/
def handleUpdateState (st : CoordState) (stateUpdate : ProcessingState) (now : Int) :
    CoordState × ProcessingState :=
  let existingState := alGet stateUpdate.documentId st.states
  let merged :=
    match existingState with
    | some old => spreadMerge old stateUpdate
    | none => stateUpdate
  let updatedState := { merged with lastUpdatedAt := some now }
  ({ st with states := alPut stateUpdate.documentId updatedState st.states }, updatedState)

/-- `DocumentCoordinator.handleDeduplication` inside one instance: the stored
owner of the hash decides; a different stored owner reports a duplicate,
otherwise the calling document is recorded as owner.  The emptiness test on
the stored owner mirrors JavaScript truthiness of the empty string. -/
def handleDeduplication (st : CoordState) (documentId contentHash : String) :
    CoordState × DeduplicationResult :=
  match alGet contentHash st.hashes with
  | some existingDocId =>
    if existingDocId != "" && existingDocId != documentId then
      (st, ⟨true, some existingDocId, contentHash, "skip", some "Identical content hash found"⟩)
    else
      ({ st with hashes := alPut contentHash documentId st.hashes },
       ⟨false, none, contentHash, "create_new", none⟩)
  | none =>
    ({ st with hashes := alPut contentHash documentId st.hashes },
     ⟨false, none, contentHash, "create_new", none⟩)

/-- Retention window for processing states, 7 days of milliseconds. -/
def RETENTION_MS : Int := 7 * 24 * 60 * 60 * 1000

/-- The cleanup age test on a state record; a record without the field is
never old (JavaScript comparison with undefined is false). -/
def stateIsOld (s : ProcessingState) (now : Int) : Bool :=
  match s.lastUpdatedAt with
  | some t => decide (t < now - RETENTION_MS)
  | none => false

/-- The cleanup scan over lock records: delete and count the expired ones. -/
def cleanupLocks : List (String × DocumentLock) → Int → List (String × DocumentLock) × Nat
  | [], _ => ([], 0)
  | (k, lock) :: rest, now =>
    let r := cleanupLocks rest now
    if lock.expiresAt ≤ now then (r.1, r.2 + 1) else ((k, lock) :: r.1, r.2)

/-- The cleanup scan over state records: delete and count the old ones. -/
def cleanupStates : List (String × ProcessingState) → Int → List (String × ProcessingState) × Nat
  | [], _ => ([], 0)
  | (k, s) :: rest, now =>
    let r := cleanupStates rest now
    if stateIsOld s now then (r.1, r.2 + 1) else ((k, s) :: r.1, r.2)

/-- `DocumentCoordinator.handleCleanup`: deletes expired locks and old states;
hash records are only counted, never deleted. -/
def handleCleanup (st : CoordState) (now : Int) : CoordState × CleanupResults :=
  let lr := cleanupLocks st.locks now
  let sr := cleanupStates st.states now
  (⟨lr.1, sr.1, st.hashes⟩, ⟨lr.2, sr.2, st.hashes.length⟩)

/-- The fleet of coordinator durable object instances, keyed by the name
passed to `idFromName`; absent names denote instances with empty storage. -/
abbrev SystemState : Type := List (String × CoordState)

/-- The instance a name resolves to (`DOCUMENT_COORDINATOR.get(idFromName name)`). -/
def getInstance (sys : SystemState) (name : String) : CoordState :=
  (alGet name sys).getD emptyCoord

/-- `DocumentProcessor.checkDeduplication` as routed by
`createQueueProcessorContext.getCoordinator`: the deduplicate call for a
document is served by the coordinator instance named by that documentId. -/
def sysDeduplicate (sys : SystemState) (documentId contentHash : String) :
    SystemState × DeduplicationResult :=
  let inst := getInstance sys documentId
  let r := handleDeduplication inst documentId contentHash
  (alPut documentId r.1 sys, r.2)

/-- Error payload of a failed `ProcessingResult`. -/
structure ErrorInfo where
  code : String
  message : String
  retryable : Bool
deriving DecidableEq

/-- `ProcessingResult` as inspected by the dispatcher: `success`, the message
id, the processing time and the optional error. -/
structure ProcResult where
  success : Bool
  messageId : String
  processingTime : Int
  error : Option ErrorInfo
deriving DecidableEq

/-- What one processor invocation did for one message: returned a result, or
threw an unhandled exception. -/
inductive Outcome where
  | ok (result : ProcResult)
  | exn (message : String)
deriving DecidableEq

/-- The queue transport disposition of one message. -/
inductive Disposition where
  | ack
  | retry
deriving DecidableEq

/-- The per-message ack/retry decision of `handleDocumentIngestion`: success
acks; a failure retries exactly when `result.error?.retryable` is true (a
missing error object is falsy); an unhandled exception retries. -/
def dispositionOf : Outcome → Disposition
  | .ok r =>
    if r.success then .ack
    else
      match r.error with
      | some e => if e.retryable then .retry else .ack
      | none => .ack
  | .exn _ => .retry

/-- Whether an outcome increments `successCount` (otherwise `failureCount`). -/
def isSuccessOutcome : Outcome → Bool
  | .ok r => r.success
  | .exn _ => false

/-- One message's contribution to the success/failure counters. -/
def countStep (acc : Nat × Nat) (o : Outcome) : Nat × Nat :=
  match o with
  | .ok r => if r.success then (acc.1 + 1, acc.2) else (acc.1, acc.2 + 1)
  | .exn _ => (acc.1, acc.2 + 1)

/-- Fixed-size chunk partitioning (`batch.messages.slice(i, i + concurrency)`
loop), fuelled by the list length so it is structurally recursive; with a
positive chunk size the fuel never runs out. -/
def chunkListGo (n : Nat) : Nat → List α → List (List α)
  | _, [] => []
  | 0, _ :: _ => []
  | fuel + 1, x :: xs => ((x :: xs).take n) :: chunkListGo n fuel ((x :: xs).drop n)

/-- Partition a list into chunks of size `n` (the last chunk may be short). -/
def chunkList (n : Nat) (l : List α) : List (List α) :=
  chunkListGo n l.length l

/-- Aggregate counters reported by `handleDocumentIngestion`. -/
structure IngestBatchResult where
  totalMessages : Nat
  successCount : Nat
  failureCount : Nat
deriving DecidableEq

/-- `handleDocumentIngestion` for a delivered batch, given the outcome of the
processor on each message: chunks of `min(length, 5)` are processed in order,
each message is counted once and receives one disposition. -/
def processIngestionBatch (outcomes : List Outcome) : IngestBatchResult × List Disposition :=
  let concurrency := min outcomes.length 5
  let chunks := chunkList concurrency outcomes
  let counts := chunks.foldl (fun acc chunk => chunk.foldl countStep acc) (0, 0)
  (⟨outcomes.length, counts.1, counts.2⟩,
   (chunks.map fun chunk => chunk.map dispositionOf).flatten)

/-- Per-document result inside `BatchProcessor.processBatch` (the
`processDocument` wrapper catches every exception and returns failure). -/
structure DocResult where
  documentId : String
  success : Bool
  error : Option String
deriving DecidableEq

/-- Aggregate of `BatchProcessor.processBatch`. -/
structure BatchResults where
  successCount : Nat
  failureCount : Nat
  errors : List (String × Option String)
deriving DecidableEq

/-- Aggregation of one document result into the running counters. -/
def docStep (acc : BatchResults) (r : DocResult) : BatchResults :=
  if r.success then { acc with successCount := acc.successCount + 1 }
  else
    { acc with
      failureCount := acc.failureCount + 1
      errors := acc.errors ++ [(r.documentId, r.error)] }

/-- `BatchProcessor.processBatch`: the document ids are partitioned into
sub-batches of 5, each sub-batch is mapped through `processDocument` and its
results are aggregated per document; the loop always continues to the next
sub-batch. -/
def processBatch (documentIds : List String) (outcome : String → DocResult) : BatchResults :=
  (chunkList 5 documentIds).foldl
    (fun acc batch => ((batch.map outcome).foldl docStep acc)) ⟨0, 0, []⟩

/-- The overall `success` flag of `BatchProcessor.processBatchReprocess`:
true only if zero documents failed. -/
def processBatchReprocessSuccess (documentIds : List String) (outcome : String → DocResult) :
    Bool :=
  (processBatch documentIds outcome).failureCount == 0

/-- The whitespace class of the splitting regex in
`DocumentProcessor.chunkText` (ASCII part). -/
def isWs (c : Char) : Bool :=
  c == ' ' || c == '\t' || c == '\n' || c == '\r' || c == '\x0b' || c == '\x0c'

/-- JavaScript `text.split(/\s+/)` on a character list: tokens between
maximal whitespace runs, keeping the empty leading/trailing tokens the regex
split produces.  Fuelled by the list length (structural recursion); the
fuel-exhausted branch is unreachable from `jsSplitWs`. -/
def jsSplitWsGo : Nat → List Char → List Char → List String
  | _, [], acc => [String.mk acc.reverse]
  | 0, _ :: _, _ => []
  | fuel + 1, c :: rest, acc =>
    if isWs c then
      String.mk acc.reverse :: jsSplitWsGo fuel (rest.dropWhile isWs) []
    else
      jsSplitWsGo fuel rest (c :: acc)

/-- `text.split(/\s+/)` of the source. -/
def jsSplitWs (s : String) : List String :=
  jsSplitWsGo s.data.length s.data []

/-- The chunking loop of `DocumentProcessor.chunkText` on the word list:
push `words.slice(i, i + chunkSize)`, break once `i + chunkSize` reaches the
end, otherwise advance `i` by `chunkSize - overlap`.  The fuel models the
possibly diverging JavaScript loop: `none` is returned exactly when the fuel
runs out, as happens for every fuel when `overlap ≥ chunkSize` keeps `i`
stuck below the break condition. -/
def chunkLoopF (words : List String) (chunkSize overlap : Nat) :
    Nat → Nat → Option (List (List String))
  | _, 0 => none
  | i, fuel + 1 =>
    if i < words.length then
      let chunk := (words.drop i).take chunkSize
      if words.length ≤ i + chunkSize then some [chunk]
      else
        match chunkLoopF words chunkSize overlap (i + (chunkSize - overlap)) fuel with
        | some rest => some (chunk :: rest)
        | none => none
    else some []

/-- `DocumentProcessor.chunkText`: split into words, run the chunking loop
(with fuel `words.length + 1`, enough whenever the loop terminates at all),
and join each chunk with single spaces. -/
def chunkText (text : String) (chunkSize overlap : Nat) : Option (List String) :=
  let words := jsSplitWs text
  (chunkLoopF words chunkSize overlap 0 (words.length + 1)).map
    (fun cs => cs.map (fun ws => String.intercalate " " ws))

/-- A stored lock held by worker w1, expiring at instant 1000. -/
def lockW : DocumentLock := ⟨"doc1", "lock-1", "processing", 100, 1000, "w1"⟩

/-- A coordinator instance holding `lockW` for document doc1. -/
def stW : CoordState := ⟨[("doc1", lockW)], [], []⟩

/-- A mid-pipeline processing state for document doc1. -/
def psOld : ProcessingState :=
  ⟨"doc1", some "processing", some ⟨"embedding", 2, 4, 50⟩, some 100, some 200, none, none⟩

/-- A coordinator instance storing `psOld`. -/
def stC6 : CoordState := ⟨[], [("doc1", psOld)], []⟩

/-- A partial update carrying only a status field. -/
def updC6 : ProcessingState := ⟨"doc1", some "completed", none, none, none, none, none⟩

/-- A terminal (completed) processing state for document doc1. -/
def psTerm : ProcessingState :=
  ⟨"doc1", some "completed", some ⟨"completed", 4, 4, 100⟩, some 1000, some 2000, some 2000, none⟩

/-- A coordinator instance storing the terminal state `psTerm`. -/
def stTerm : CoordState := ⟨[], [("doc1", psTerm)], []⟩

/-- A partial update that supplies no `startedAt` (not a fresh cycle). -/
def updNoStart : ProcessingState := ⟨"doc1", some "processing", none, none, none, none, none⟩

/-- Five document ids forming a single reprocessing sub-batch. -/
def ids0 : List String := ["d1", "d2", "d3", "d4", "d5"]

/-- Per-document outcomes where three of the five documents fail. -/
def outcome0 : String → DocResult := fun id =>
  if id == "d1" || id == "d5" then ⟨id, true, none⟩
  else ⟨id, false, some "embedding failed"⟩

/-- A batch of 10 message outcomes where message 3 throws and the others
succeed. -/
def exampleOutcomes10 : List Outcome :=
  [.ok ⟨true, "m1", 5, none⟩, .ok ⟨true, "m2", 5, none⟩, .exn "boom",
   .ok ⟨true, "m4", 5, none⟩, .ok ⟨true, "m5", 5, none⟩, .ok ⟨true, "m6", 5, none⟩,
   .ok ⟨true, "m7", 5, none⟩, .ok ⟨true, "m8", 5, none⟩, .ok ⟨true, "m9", 5, none⟩,
   .ok ⟨true, "m10", 5, none⟩]

/-! Helper lemmas about the storage model and the folds. -/

theorem alGet_alPut_self (k : String) (v : α) (l : List (String × α)) :
    alGet k (alPut k v l) = some v := by
  simp [alGet, alPut, List.find?]

theorem alGet_alDel_self (k : String) (l : List (String × α)) :
    alGet k (alDel k l) = none := by
  induction l with
  | nil => rfl
  | cons p rest ih =>
    by_cases h : p.1 == k
    · simp only [alDel, List.filter, bne, h]
      exact ih
    · simp only [alDel, List.filter, bne, h, Bool.not_false]
      simp only [alGet, List.find?, h]
      exact ih

theorem countKey_alPut (k : String) (v : α) (l : List (String × α)) :
    countKey k (alPut k v l) = 1 := by
  have hnone : (l.filter fun p => p.1 != k).filter (fun p => p.1 == k) = [] := by
    induction l with
    | nil => rfl
    | cons p rest ih =>
      by_cases h : p.1 == k
      · simp [List.filter, bne, h, ih]
      · simp [List.filter, bne, h, ih]
  simp [countKey, alPut, List.filter, hnone]

theorem filter_ne_alPut (k : String) (v : α) (l : List (String × α)) :
    (alPut k v l).filter (fun p => p.1 != k) = l.filter (fun p => p.1 != k) := by
  have : (l.filter fun p => p.1 != k).filter (fun p => p.1 != k)
      = l.filter fun p => p.1 != k := by
    induction l with
    | nil => rfl
    | cons p rest ih =>
      by_cases h : p.1 == k
      · simp [List.filter, bne, h, ih]
      · simp [List.filter, bne, h, ih]
  simp [alPut, List.filter, this]

theorem cleanupLocks_spec (l : List (String × DocumentLock)) (now : Int) :
    cleanupLocks l now
      = (l.filter fun p => decide (now < p.2.expiresAt),
         l.countP fun p => decide (p.2.expiresAt ≤ now)) := by
  induction l with
  | nil => rfl
  | cons p rest ih =>
    obtain ⟨k, lock⟩ := p
    by_cases h : lock.expiresAt ≤ now
    · have h2 : ¬ now < lock.expiresAt := by omega
      simp [cleanupLocks, ih, h, h2, List.filter_cons, List.countP_cons]
    · have h2 : now < lock.expiresAt := by omega
      simp [cleanupLocks, ih, h, h2, List.filter_cons, List.countP_cons]

theorem cleanupStates_spec (l : List (String × ProcessingState)) (now : Int) :
    cleanupStates l now
      = (l.filter fun p => !stateIsOld p.2 now,
         l.countP fun p => stateIsOld p.2 now) := by
  induction l with
  | nil => rfl
  | cons p rest ih =>
    obtain ⟨k, s⟩ := p
    by_cases h : stateIsOld s now
    · simp [cleanupStates, ih, h, List.filter_cons, List.countP_cons]
    · simp [cleanupStates, ih, h, List.filter_cons, List.countP_cons]

theorem chunkListGo_flatten (n : Nat) (hn : 0 < n) :
    ∀ (fuel : Nat) (l : List α), l.length ≤ fuel → (chunkListGo n fuel l).flatten = l := by
  intro fuel
  induction fuel with
  | zero =>
    intro l hl
    match l with
    | [] => rfl
    | x :: xs => exact absurd hl (by simp)
  | succ f ih =>
    intro l hl
    match l with
    | [] => rfl
    | x :: xs =>
      have hdrop : ((x :: xs).drop n).length ≤ f := by
        simp only [List.length_drop, List.length_cons]
        simp only [List.length_cons] at hl
        omega
      simp only [chunkListGo, List.flatten_cons, ih _ hdrop, List.take_append_drop]

theorem chunkList_flatten (n : Nat) (l : List α) (hn : 0 < n) :
    (chunkList n l).flatten = l :=
  chunkListGo_flatten n hn l.length l le_rfl

theorem foldl_chunks (f : β → α → β) :
    ∀ (L : List (List α)) (a : β),
      L.foldl (fun acc c => c.foldl f acc) a = L.flatten.foldl f a := by
  intro L
  induction L with
  | nil => intro a; rfl
  | cons c rest ih =>
    intro a
    simp only [List.foldl_cons, List.flatten_cons, List.foldl_append, ih]

theorem flatten_map_map (g : α → β) :
    ∀ (L : List (List α)), (L.map fun c => c.map g).flatten = L.flatten.map g := by
  intro L
  induction L with
  | nil => rfl
  | cons c rest ih =>
    simp only [List.map_cons, List.flatten_cons, List.map_append, ih]

theorem foldl_countStep :
    ∀ (l : List Outcome) (a b : Nat),
      l.foldl countStep (a, b)
        = (a + l.countP isSuccessOutcome, b + l.countP fun o => !isSuccessOutcome o) := by
  intro l
  induction l with
  | nil => intro a b; simp
  | cons o rest ih =>
    intro a b
    match o with
    | .ok r =>
      by_cases h : r.success
      · simp [countStep, List.countP_cons, isSuccessOutcome, h, ih]
        omega
      · simp [countStep, List.countP_cons, isSuccessOutcome, h, ih]
        omega
    | .exn m =>
      simp [countStep, List.countP_cons, isSuccessOutcome, ih]
      omega

theorem foldl_docStep :
    ∀ (rs : List DocResult) (acc : BatchResults),
      rs.foldl docStep acc
        = ⟨acc.successCount + rs.countP (fun r => r.success),
           acc.failureCount + rs.countP (fun r => !r.success),
           acc.errors ++ (rs.filter fun r => !r.success).map (fun r => (r.documentId, r.error))⟩ := by
  intro rs
  induction rs with
  | nil => intro acc; simp
  | cons r rest ih =>
    intro acc
    by_cases h : r.success
    · simp [docStep, List.countP_cons, List.filter_cons, h, ih]
      omega
    · simp [docStep, List.countP_cons, List.filter_cons, h, ih]
      omega

theorem jsSplitWsGo_ne_nil :
    ∀ (fuel : Nat) (cs acc : List Char), cs.length ≤ fuel → jsSplitWsGo fuel cs acc ≠ [] := by
  intro fuel
  induction fuel with
  | zero =>
    intro cs acc hcs
    match cs with
    | [] => simp [jsSplitWsGo]
    | c :: rest => exact absurd hcs (by simp)
  | succ f ih =>
    intro cs acc hcs
    match cs with
    | [] => simp [jsSplitWsGo]
    | c :: rest =>
      simp only [jsSplitWsGo]
      by_cases h : isWs c
      · simp [h]
      · simp only [h, Bool.false_eq_true, if_false]
        exact ih rest (c :: acc) (by simp only [List.length_cons] at hcs; omega)

theorem jsSplitWs_ne_nil (s : String) : jsSplitWs s ≠ [] :=
  jsSplitWsGo_ne_nil s.data.length s.data [] le_rfl

theorem chunkLoopF_total (words : List String) (cs ov : Nat) (h : ov < cs) :
    ∀ (fuel i : Nat), words.length - i < fuel →
      ∃ r, chunkLoopF words cs ov i fuel = some r
        ∧ (∀ c ∈ r, c.length ≤ cs)
        ∧ (i < words.length → r ≠ []) := by
  intro fuel
  induction fuel with
  | zero => intro i h0; exact absurd h0 (Nat.not_lt_zero _)
  | succ f ih =>
    intro i hf
    by_cases hi : i < words.length
    · by_cases hend : words.length ≤ i + cs
      · refine ⟨[(words.drop i).take cs], ?_, ?_, ?_⟩
        · simp [chunkLoopF, hi, hend]
        · intro c hc
          simp only [List.mem_singleton] at hc
          subst hc
          simp only [List.length_take]
          exact min_le_left _ _
        · intro _; simp
      · obtain ⟨rest, hrest, hb, hne⟩ := ih (i + (cs - ov)) (by omega)
        refine ⟨(words.drop i).take cs :: rest, ?_, ?_, ?_⟩
        · simp [chunkLoopF, hi, hend, hrest]
        · intro c hc
          rcases List.mem_cons.mp hc with hc | hc
          · subst hc
            simp only [List.length_take]
            exact min_le_left _ _
          · exact hb c hc
        · intro _; simp
    · exact ⟨[], by simp [chunkLoopF, hi], by simp, fun hc => absurd hc hi⟩

/-! Claim theorems. -/

/-- Claim C1: at most one lock record per document is kept (the lock store is
keyed by the document id, and the handler preserves one-record-per-key);
acquiring against a stored unexpired lock of a different worker returns a 409
conflict carrying the holder workerId, lockType and expiresAt and leaves the
storage unchanged; a new lock record is created exactly when no lock is
stored or the stored lock has expired. -/
theorem acquireLock_mutual_exclusion (st : CoordState) (documentId lockType : String)
    (ttlSeconds : Int) (workerId : String) (now : Int) (freshLockId : String) :
    (∀ l, alGet documentId st.locks = some l → now < l.expiresAt → l.workerId ≠ workerId →
        handleAcquireLock st documentId lockType ttlSeconds workerId now freshLockId
          = (st, .conflict l.workerId l.lockType l.expiresAt))
    ∧ ((alGet documentId st.locks = none ∨
          ∃ l, alGet documentId st.locks = some l ∧ l.expiresAt ≤ now) →
        ∃ newLock : DocumentLock,
          newLock = ⟨documentId, freshLockId, lockType, now, now + ttlSeconds * 1000, workerId⟩
          ∧ handleAcquireLock st documentId lockType ttlSeconds workerId now freshLockId
              = ({ st with locks := alPut documentId newLock st.locks },
                 .granted newLock "acquired"))
    ∧ (countKey documentId st.locks ≤ 1 →
        countKey documentId
          (handleAcquireLock st documentId lockType ttlSeconds workerId now freshLockId).1.locks
          ≤ 1) := by
  refine ⟨?_, ?_, ?_⟩
  · intro l hget hlt hne
    simp [handleAcquireLock, hget, hlt, hne]
  · intro hfree
    refine ⟨_, rfl, ?_⟩
    rcases hfree with hnone | ⟨l, hget, hexp⟩
    · simp [handleAcquireLock, hnone]
    · have hnlt : ¬ now < l.expiresAt := by omega
      simp [handleAcquireLock, hget, hnlt]
  · intro hcount
    rcases hg : alGet documentId st.locks with _ | l
    · simp [handleAcquireLock, hg, countKey_alPut]
    · by_cases h1 : now < l.expiresAt
      · by_cases h2 : l.workerId == workerId
        · simp [handleAcquireLock, hg, h1, h2, countKey_alPut]
        · simpa [handleAcquireLock, hg, h1, h2] using hcount
      · simp [handleAcquireLock, hg, h1, countKey_alPut]

/-- Claim C1 witness: worker w2 acquiring doc1 while w1 holds an unexpired
lock gets the conflict summary and the storage is unchanged; acquiring on an
empty instance stores a fresh lock. -/
theorem acquireLock_mutual_exclusion_witness :
    handleAcquireLock stW "doc1" "processing" 300 "w2" 500 "fresh-id"
        = (stW, .conflict "w1" "processing" 1000)
    ∧ (∃ newLock : DocumentLock,
        newLock = ⟨"doc1", "fresh-id", "processing", 500, 500 + 300 * 1000, "w2"⟩
        ∧ handleAcquireLock emptyCoord "doc1" "processing" 300 "w2" 500 "fresh-id"
            = ({ emptyCoord with locks := alPut "doc1" newLock emptyCoord.locks },
               .granted newLock "acquired")) :=
  ⟨(acquireLock_mutual_exclusion stW "doc1" "processing" 300 "w2" 500 "fresh-id").1
      lockW (by decide) (by decide) (by decide),
   (acquireLock_mutual_exclusion emptyCoord "doc1" "processing" 300 "w2" 500 "fresh-id").2.1
      (Or.inl (by decide))⟩

/-- Claim C7: re-acquiring an unexpired lock with the same workerId returns
granted with action extended, the stored record is the old one with only
`expiresAt` moved to `now + ttlSeconds * 1000` (documentId, lockId, lockType,
acquiredAt, workerId unchanged), exactly one record is stored under the
document and records of other documents are untouched. -/
theorem acquireLock_extend_frame (st : CoordState) (documentId lockType : String)
    (ttlSeconds : Int) (workerId : String) (now : Int) (freshLockId : String)
    (l : DocumentLock)
    (hget : alGet documentId st.locks = some l)
    (hunexp : now < l.expiresAt)
    (hwid : l.workerId = workerId) :
    handleAcquireLock st documentId lockType ttlSeconds workerId now freshLockId
      = ({ st with
            locks := alPut documentId { l with expiresAt := now + ttlSeconds * 1000 } st.locks },
         .granted { l with expiresAt := now + ttlSeconds * 1000 } "extended")
    ∧ ({ l with expiresAt := now + ttlSeconds * 1000 } : DocumentLock).documentId = l.documentId
    ∧ ({ l with expiresAt := now + ttlSeconds * 1000 } : DocumentLock).lockId = l.lockId
    ∧ ({ l with expiresAt := now + ttlSeconds * 1000 } : DocumentLock).lockType = l.lockType
    ∧ ({ l with expiresAt := now + ttlSeconds * 1000 } : DocumentLock).acquiredAt = l.acquiredAt
    ∧ ({ l with expiresAt := now + ttlSeconds * 1000 } : DocumentLock).workerId = l.workerId
    ∧ countKey documentId
        (handleAcquireLock st documentId lockType ttlSeconds workerId now freshLockId).1.locks = 1
    ∧ (handleAcquireLock st documentId lockType ttlSeconds workerId now
          freshLockId).1.locks.filter (fun p => p.1 != documentId)
        = st.locks.filter (fun p => p.1 != documentId) := by
  have hmain :
      handleAcquireLock st documentId lockType ttlSeconds workerId now freshLockId
        = ({ st with
              locks := alPut documentId { l with expiresAt := now + ttlSeconds * 1000 } st.locks },
           .granted { l with expiresAt := now + ttlSeconds * 1000 } "extended") := by
    simp [handleAcquireLock, hget, hunexp, hwid]
  refine ⟨hmain, rfl, rfl, rfl, rfl, rfl, ?_, ?_⟩
  · rw [hmain]
    exact countKey_alPut _ _ _
  · rw [hmain]
    exact filter_ne_alPut _ _ _

/-- Claim C7 witness: worker w1 re-acquiring doc1 at instant 500 with a ttl
of 600 seconds extends the stored lock to expire at 600500. -/
theorem acquireLock_extend_frame_witness :
    handleAcquireLock stW "doc1" "processing" 600 "w1" 500 "fresh-2"
      = ({ stW with
            locks := alPut "doc1" { lockW with expiresAt := 500 + 600 * 1000 } stW.locks },
         .granted { lockW with expiresAt := 500 + 600 * 1000 } "extended") :=
  (acquireLock_extend_frame stW "doc1" "processing" 600 "w1" 500 "fresh-2"
    lockW (by decide) (by decide) (by decide)).1

/-- Claim C8: releasing with no stored record answers 404 and changes
nothing; releasing when the stored lockId or workerId differs answers 403 and
leaves the record stored; the record is deleted only when both match. -/
theorem releaseLock_ownership (st : CoordState) (documentId lockId workerId : String) :
    (alGet documentId st.locks = none →
        handleReleaseLock st documentId lockId workerId = (st, .notFound))
    ∧ (∀ l, alGet documentId st.locks = some l →
        (l.lockId ≠ lockId ∨ l.workerId ≠ workerId) →
        handleReleaseLock st documentId lockId workerId = (st, .forbidden))
    ∧ (∀ l, alGet documentId st.locks = some l → l.lockId = lockId → l.workerId = workerId →
        handleReleaseLock st documentId lockId workerId
            = ({ st with locks := alDel documentId st.locks }, .ok)
          ∧ alGet documentId (alDel documentId st.locks) = (none : Option DocumentLock)) := by
  refine ⟨?_, ?_, ?_⟩
  · intro hnone
    simp [handleReleaseLock, hnone]
  · intro l hget hmis
    rcases hmis with h | h
    · simp [handleReleaseLock, hget, h]
    · simp [handleReleaseLock, hget, h]
  · intro l hget h1 h2
    exact ⟨by simp [handleReleaseLock, hget, h1, h2], alGet_alDel_self _ _⟩

/-- Claim C8 witness: releasing doc1 on an empty instance answers 404;
releasing with a wrong lockId answers 403 and keeps the record; releasing
with the stored lockId and workerId deletes the record. -/
theorem releaseLock_ownership_witness :
    handleReleaseLock emptyCoord "doc1" "lock-1" "w1" = (emptyCoord, .notFound)
    ∧ handleReleaseLock stW "doc1" "other-lock" "w1" = (stW, .forbidden)
    ∧ handleReleaseLock stW "doc1" "lock-1" "w1"
        = ({ stW with locks := alDel "doc1" stW.locks }, .ok) :=
  ⟨(releaseLock_ownership emptyCoord "doc1" "lock-1" "w1").1 (by decide),
   (releaseLock_ownership stW "doc1" "other-lock" "w1").2.1 lockW (by decide)
      (Or.inl (by decide)),
   ((releaseLock_ownership stW "doc1" "lock-1" "w1").2.2 lockW (by decide) (by decide)
      (by decide)).1⟩

/-- Claim C6: the stored record after update-state is the shallow merge of
the submitted partial over the previous record (or the partial itself when no
record exists), with `lastUpdatedAt` always stamped to the server clock and
never taken from the caller; a partial carrying only a completed status over
a processing record changes nothing but the status and `lastUpdatedAt`. -/
theorem updateState_merge_semantics (st : CoordState) (upd : ProcessingState) (now : Int) :
    (∀ old, alGet upd.documentId st.states = some old →
        handleUpdateState st upd now
          = ({ st with
                states := alPut upd.documentId
                  { spreadMerge old upd with lastUpdatedAt := some now } st.states },
             { spreadMerge old upd with lastUpdatedAt := some now }))
    ∧ (alGet upd.documentId st.states = none →
        handleUpdateState st upd now
          = ({ st with
                states := alPut upd.documentId { upd with lastUpdatedAt := some now } st.states },
             { upd with lastUpdatedAt := some now }))
    ∧ (handleUpdateState st upd now).2.lastUpdatedAt = some now
    ∧ (∀ old, alGet upd.documentId st.states = some old →
        old.status = some "processing" →
        upd.status = some "completed" → upd.progress = none → upd.startedAt = none →
        upd.completedAt = none → upd.error = none →
        (handleUpdateState st upd now).2
          = ⟨upd.documentId, some "completed", old.progress, old.startedAt,
             some now, old.completedAt, old.error⟩) := by
  refine ⟨?_, ?_, ?_, ?_⟩
  · intro old hget
    simp [handleUpdateState, hget]
  · intro hnone
    simp [handleUpdateState, hnone]
  · rcases hg : alGet upd.documentId st.states with _ | old
    · simp [handleUpdateState, hg]
    · simp [handleUpdateState, hg]
  · intro old hget host hust hup husa huc hue
    simp [handleUpdateState, hget, spreadMerge, jsOverride, hust, hup, husa, huc, hue]

/-- Claim C6 witness: updating doc1 (stored mid-pipeline as processing with
progress) with a partial carrying only status completed keeps the stored
progress, startedAt, completedAt and error, and stamps `lastUpdatedAt` with
the server instant 300. -/
theorem updateState_merge_semantics_witness :
    (handleUpdateState stC6 updC6 300).2
      = ⟨"doc1", some "completed", some ⟨"embedding", 2, 4, 50⟩, some 100, some 300, none, none⟩ :=
  (updateState_merge_semantics stC6 updC6 300).2.2.2 psOld (by decide) (by decide)
    (by decide) (by decide) (by decide) (by decide) (by decide)

/-- Claim C3 counterexample: the stored state of doc1 is terminal
(status completed), the partial update supplies no new `startedAt`, and yet
the update-state handler mutates the record, moving its status back to
processing.  This refutes the claim that a terminal state is mutated only by
a fresh processing cycle. -/
theorem updateState_terminal_counterexample :
    (alGet "doc1" stTerm.states).map (fun s => s.status) = some (some "completed")
    ∧ updNoStart.startedAt = none
    ∧ (alGet "doc1" (handleUpdateState stTerm updNoStart 3000).1.states).map (fun s => s.status)
        = some (some "processing") := by
  decide

/-- Claim C3 as amended: the update-state handler merges unconditionally; a
record in a terminal status (completed, failed or cancelled) is still
replaced by the shallow merge of any submitted partial, with `lastUpdatedAt`
restamped, even when the partial supplies no new `startedAt` (in which case
the stored `startedAt` is simply carried over).  Protection of terminal
states is a caller convention, not enforced by the coordinator. -/
theorem updateState_mutates_terminal (st : CoordState) (upd : ProcessingState) (now : Int)
    (old : ProcessingState)
    (hget : alGet upd.documentId st.states = some old)
    (_hterm : old.status = some "completed" ∨ old.status = some "failed"
              ∨ old.status = some "cancelled")
    (hstart : upd.startedAt = none) :
    alGet upd.documentId (handleUpdateState st upd now).1.states
        = some { spreadMerge old upd with lastUpdatedAt := some now }
    ∧ (handleUpdateState st upd now).2.lastUpdatedAt = some now
    ∧ ({ spreadMerge old upd with lastUpdatedAt := some now } : ProcessingState).startedAt
        = old.startedAt := by
  refine ⟨?_, ?_, ?_⟩
  · simp only [handleUpdateState, hget]
    exact alGet_alPut_self _ _ _
  · simp [handleUpdateState, hget]
  · simp [spreadMerge, jsOverride, hstart]

/-- Claim C3 amended witness: the terminal completed record of doc1 is
replaced by the merge of a startedAt-free partial, restamped at instant
3000. -/
theorem updateState_mutates_terminal_witness :
    alGet "doc1" (handleUpdateState stTerm updNoStart 3000).1.states
        = some { spreadMerge psTerm updNoStart with lastUpdatedAt := some 3000 } :=
  (updateState_mutates_terminal stTerm updNoStart 3000 psTerm (by decide)
    (Or.inl (by decide)) (by decide)).1

/-- Claim C2 evaluated at the failing input (documents doc-a and doc-b, hash
h, starting from empty storage).  Against a single coordinator instance, the
deduplicate handler does report the second document as a duplicate of the
first (first conjunct).  But the deployed call path routes each deduplicate
call through `getCoordinator(documentId) = idFromName(documentId)`, so the
call for doc-b consults the doc-b instance, finds no owner for h, answers
`isDuplicate = false, action = create_new`, and records doc-b as owner of h
in its own instance while doc-a stays owner only inside the doc-a instance:
the hash index is document-sharded, not global, and cross-document
duplicates are never detected. -/
theorem dedup_routing_evaluation :
    (handleDeduplication (handleDeduplication emptyCoord "doc-a" "h").1 "doc-b" "h").2
        = ⟨true, some "doc-a", "h", "skip", some "Identical content hash found"⟩
    ∧ (sysDeduplicate (sysDeduplicate [] "doc-a" "h").1 "doc-b" "h").2
        = ⟨false, none, "h", "create_new", none⟩
    ∧ alGet "h"
        (getInstance (sysDeduplicate (sysDeduplicate [] "doc-a" "h").1 "doc-b" "h").1
          "doc-b").hashes = some "doc-b"
    ∧ alGet "h"
        (getInstance (sysDeduplicate (sysDeduplicate [] "doc-a" "h").1 "doc-b" "h").1
          "doc-a").hashes = some "doc-a" := by
  decide

/-- Claim C9: cleanup keeps exactly the lock records with `now < expiresAt`
and the state records not older than the 7-day retention window, counts the
deleted ones, and leaves hash records untouched (only counted). -/
theorem cleanup_deletes_exactly (st : CoordState) (now : Int) :
    (handleCleanup st now).1.locks = st.locks.filter (fun p => decide (now < p.2.expiresAt))
    ∧ (handleCleanup st now).1.states = st.states.filter (fun p => !stateIsOld p.2 now)
    ∧ (handleCleanup st now).1.hashes = st.hashes
    ∧ (handleCleanup st now).2.expiredLocks
        = st.locks.countP (fun p => decide (p.2.expiresAt ≤ now))
    ∧ (handleCleanup st now).2.oldStates = st.states.countP (fun p => stateIsOld p.2 now)
    ∧ (handleCleanup st now).2.oldHashes = st.hashes.length := by
  simp [handleCleanup, cleanupLocks_spec, cleanupStates_spec]

/-- Claim C4: document-ingestion batch dispatch gives every message exactly
one disposition, in delivery order: ack on success, retry on a retryable
failure, ack on a non-retryable failure, retry on an unhandled exception;
the reported successCount plus failureCount equals totalMessages; and the
10-message batch where message 3 throws yields exactly 9 acks and 1 retry. -/
theorem ingestion_dispositions (outcomes : List Outcome) :
    (processIngestionBatch outcomes).2 = outcomes.map dispositionOf
    ∧ (processIngestionBatch outcomes).1.totalMessages = outcomes.length
    ∧ (processIngestionBatch outcomes).1.successCount = outcomes.countP isSuccessOutcome
    ∧ (processIngestionBatch outcomes).1.failureCount
        = outcomes.countP (fun o => !isSuccessOutcome o)
    ∧ (processIngestionBatch outcomes).1.successCount
          + (processIngestionBatch outcomes).1.failureCount
        = (processIngestionBatch outcomes).1.totalMessages
    ∧ (∀ (mid : String) (t : Int) (e : Option ErrorInfo),
        dispositionOf (.ok ⟨true, mid, t, e⟩) = .ack)
    ∧ (∀ (mid : String) (t : Int) (c m : String),
        dispositionOf (.ok ⟨false, mid, t, some ⟨c, m, true⟩⟩) = .retry)
    ∧ (∀ (mid : String) (t : Int) (c m : String),
        dispositionOf (.ok ⟨false, mid, t, some ⟨c, m, false⟩⟩) = .ack)
    ∧ (∀ m : String, dispositionOf (.exn m) = .retry)
    ∧ processIngestionBatch exampleOutcomes10
        = (⟨10, 9, 1⟩,
           [.ack, .ack, .retry, .ack, .ack, .ack, .ack, .ack, .ack, .ack]) := by
  have hkey : processIngestionBatch outcomes
      = (⟨outcomes.length, outcomes.countP isSuccessOutcome,
           outcomes.countP fun o => !isSuccessOutcome o⟩,
         outcomes.map dispositionOf) := by
    rcases houtcomes : outcomes with _ | ⟨o, os⟩
    · rfl
    · have hmin : 0 < min (o :: os).length 5 := by simp
      have hflat := chunkList_flatten (min (o :: os).length 5) (o :: os) hmin
      simp only [processIngestionBatch]
      rw [foldl_chunks, hflat, foldl_countStep, flatten_map_map, hflat]
      simp
  have hsum : ∀ l : List Outcome,
      l.countP isSuccessOutcome + l.countP (fun o => !isSuccessOutcome o) = l.length := by
    intro l
    induction l with
    | nil => rfl
    | cons o rest ih =>
      by_cases h : isSuccessOutcome o <;> simp [List.countP_cons, h] <;> omega
  refine ⟨by rw [hkey], by rw [hkey], by rw [hkey], by rw [hkey],
          by rw [hkey]; exact hsum outcomes, ?_, ?_, ?_, ?_, by decide⟩
  · intro mid t e; rfl
  · intro mid t c m; rfl
  · intro mid t c m; rfl
  · intro m; rfl

/-- Claim C5 counterexample: a single reprocessing sub-batch of five
documents in which three fail (more than half).  The sub-batch is not
treated as wholly failed: the two successful documents are still counted as
successes and only the three failing documents are surfaced as errors, so no
sub-batch-level majority rule exists in `BatchProcessor.processBatch`. -/
theorem batchReprocess_majority_counterexample :
    (processBatch ids0 outcome0).successCount = 2
    ∧ (processBatch ids0 outcome0).failureCount = 3
    ∧ (processBatch ids0 outcome0).errors
        = [("d2", some "embedding failed"), ("d3", some "embedding failed"),
           ("d4", some "embedding failed")]
    ∧ ¬ (processBatch ids0 outcome0).successCount = 0
    ∧ processBatchReprocessSuccess ids0 outcome0 = false := by
  decide

/-- Claim C5 as amended: batch reprocessing partitions the document ids into
sub-batches of five and counts every document individually; a sub-batch in
which more than half of the documents failed receives no special treatment
(no wholly-failed marking), the outer loop always continues through all
remaining sub-batches, and the overall result is successful exactly when
zero documents failed. -/
theorem batchReprocess_per_document (ids : List String) (outcome : String → DocResult) :
    (processBatch ids outcome).successCount = (ids.map outcome).countP (fun r => r.success)
    ∧ (processBatch ids outcome).failureCount = (ids.map outcome).countP (fun r => !r.success)
    ∧ (processBatch ids outcome).successCount + (processBatch ids outcome).failureCount
        = ids.length
    ∧ (processBatch ids outcome).errors
        = ((ids.map outcome).filter fun r => !r.success).map (fun r => (r.documentId, r.error))
    ∧ processBatchReprocessSuccess ids outcome
        = ((processBatch ids outcome).failureCount == 0) := by
  have hkey : processBatch ids outcome
      = ⟨(ids.map outcome).countP (fun r => r.success),
         (ids.map outcome).countP (fun r => !r.success),
         ((ids.map outcome).filter fun r => !r.success).map (fun r => (r.documentId, r.error))⟩ := by
    have hflat := chunkList_flatten 5 ids (by omega)
    simp only [processBatch, List.foldl_map]
    rw [foldl_chunks, hflat, ← List.foldl_map outcome docStep, foldl_docStep]
    simp
  have hsum : ∀ l : List DocResult,
      l.countP (fun r => r.success) + l.countP (fun r => !r.success) = l.length := by
    intro l
    induction l with
    | nil => rfl
    | cons r rest ih =>
      by_cases h : r.success <;> simp [List.countP_cons, h] <;> omega
  refine ⟨by rw [hkey], by rw [hkey], ?_, by rw [hkey], rfl⟩
  rw [hkey]
  have := hsum (ids.map outcome)
  simpa using this

/-- Claim C10: for every input text and caller-supplied parameters with
`overlap < chunkSize`, the chunking loop of `DocumentProcessor.chunkText`
terminates (fuel `words.length + 1` suffices, so the fuelled loop returns
`some`), the resulting chunk list is non-empty, every chunk holds at most
`chunkSize` words, and `chunkText` returns those chunks joined with
spaces. -/
theorem chunkText_terminates (text : String) (chunkSize overlap : Nat)
    (h : overlap < chunkSize) :
    ∃ chunks,
      chunkLoopF (jsSplitWs text) chunkSize overlap 0 ((jsSplitWs text).length + 1)
          = some chunks
      ∧ chunks ≠ []
      ∧ (∀ c ∈ chunks, c.length ≤ chunkSize)
      ∧ chunkText text chunkSize overlap
          = some (chunks.map fun ws => String.intercalate " " ws) := by
  have hpos : 0 < (jsSplitWs text).length :=
    List.length_pos.mpr (jsSplitWs_ne_nil text)
  obtain ⟨r, hr, hb, hne⟩ :=
    chunkLoopF_total (jsSplitWs text) chunkSize overlap h ((jsSplitWs text).length + 1) 0
      (by omega)
  exact ⟨r, hr, hne hpos, hb, by simp [chunkText, hr]⟩

/-- Claim C10 witness: the text with words a b c chunked with chunkSize 2
and overlap 1. -/
theorem chunkText_terminates_witness :
    1 < 2
    ∧ ∃ chunks,
        chunkLoopF (jsSplitWs "a b c") 2 1 0 ((jsSplitWs "a b c").length + 1) = some chunks
        ∧ chunks ≠ []
        ∧ (∀ c ∈ chunks, c.length ≤ 2)
        ∧ chunkText "a b c" 2 1 = some (chunks.map fun ws => String.intercalate " " ws) :=
  ⟨by decide, chunkText_terminates "a b c" 2 1 (by decide)⟩
